import Mathlib

/-
Verification development for the perikan event framework
(src/event.ts, src/index.ts, src/matcher.ts, src/snowflake.ts,
src/bus.ts, src/cache.ts).

The TypeScript source is shallowly embedded:
  * JavaScript runtime values that flow through the dynamic parts of the
    API (payloads, option objects, flow-step results) are modelled by the
    inductive `JVal`.
  * The zod payload schemas used in this repository are flat object
    schemas (e.g. `z.object({ foo: z.string() })`); they are modelled by
    `PayloadSchema`, a list of required named fields, with zod's
    semantics: the candidate must be a plain object and every listed
    field must be present and well-typed (unknown keys are ignored).
  * Asynchrony: the runtime is single-threaded and every await point is
    sequentialised by the source itself (`for ... await` in the flow,
    `Promise.allSettled` in the bus), so promises are modelled by plain
    values and a rejected promise / thrown exception by `Except.error`.
  * Ambient effects (`Date.now()`, `perikan.nextId()`) are passed in as
    explicit arguments.
  * The LRU parse cache only affects `safeParse`/`safeParseAsync`; the
    bus's `emit` validates through `validate`, which calls the schema
    directly, so the cache is not modelled here.
-/

/-- A JavaScript runtime value (the dynamic values this API manipulates). -/
inductive JVal where
  | undefined : JVal
  | null : JVal
  | bool : Bool → JVal
  | num : Int → JVal
  | str : String → JVal
  | arr : List JVal → JVal
  | obj : List (String × JVal) → JVal

namespace JVal

/-- Does `v === undefined` hold? -/
def isUndef : JVal → Bool
  | .undefined => true
  | _ => false

/-- JavaScript truthiness of a value. -/
def truthy : JVal → Bool
  | .undefined => false
  | .null => false
  | .bool b => b
  | .num n => n != 0
  | .str s => !s.isEmpty
  | .arr _ => true
  | .obj _ => true

/-- Does `typeof v === "object"` hold (true for null, arrays and objects)? -/
def typeofIsObject : JVal → Bool
  | .null => true
  | .arr _ => true
  | .obj _ => true
  | _ => false

/-- Is the value an array (`Array.isArray`)? -/
def isArr : JVal → Bool
  | .arr _ => true
  | _ => false

/-- Does `k in v` hold for the property names used by `_resolveArgs`?
(Arrays have no such own properties; the source only evaluates `in` after
a truthiness and `typeof === "object"` guard.) -/
def hasKey (v : JVal) (k : String) : Bool :=
  match v with
  | .obj kvs => kvs.any (fun p => p.1 == k)
  | _ => false

/-- Property access `v[k]`, yielding `undefined` when absent or when `v`
is not a plain object (the source only accesses properties of option
objects). -/
def jGet (v : JVal) (k : String) : JVal :=
  match v with
  | .obj kvs =>
    match kvs.find? (fun p => p.1 == k) with
    | some p => p.2
    | none => .undefined
  | _ => .undefined

/-- Decode a JS value as a list of numbers; `none` when it is not an
array of numbers.  (The TypeScript signatures guarantee the decoded
shapes whenever these fields are present.) -/
def toIntList : JVal → Option (List Int)
  | .arr xs => go xs
  | _ => none
where
  go : List JVal → Option (List Int)
    | [] => some []
    | .num n :: rest => (go rest).map (n :: ·)
    | _ => none

/-- Decode a JS value as a list of strings; `none` when it is not an
array of strings. -/
def toStrList : JVal → Option (List String)
  | .arr xs => go xs
  | _ => none
where
  go : List JVal → Option (List String)
    | [] => some []
    | .str s :: rest => (go rest).map (s :: ·)
    | _ => none

end JVal

/-- The `isEmpty` helper of src/event.ts:
`val === undefined || val === null ||
 (typeof val === "object" && Object.keys(val).length === 0)`. -/
def isEmpty : JVal → Bool
  | .undefined => true
  | .null => true
  | .obj kvs => kvs.isEmpty
  | .arr xs => xs.isEmpty
  | _ => false

/-- A field type of a flat zod object schema, as used for payloads in
this repository (`z.string()`, `z.number()`, `z.boolean()`, `z.any()`). -/
inductive FieldTy where
  | fstr : FieldTy
  | fnum : FieldTy
  | fbool : FieldTy
  | fany : FieldTy

/-- Does a JS value satisfy a field type? -/
def validField : FieldTy → JVal → Bool
  | .fstr, .str _ => true
  | .fstr, _ => false
  | .fnum, .num _ => true
  | .fnum, _ => false
  | .fbool, .bool _ => true
  | .fbool, _ => false
  | .fany, _ => true

/-- A flat `z.object({...})` payload schema: the listed fields are
required; unknown keys are ignored (zod's default strip mode does not
reject them). -/
structure PayloadSchema where
  fields : List (String × FieldTy)

/-- zod validation of a candidate payload against the schema: the
candidate must be a plain object and every declared field must be
present and well-typed. -/
def validPayload (s : PayloadSchema) (v : JVal) : Bool :=
  match v with
  | .obj kvs =>
    s.fields.all (fun p =>
      match kvs.find? (fun q => q.1 == p.1) with
      | some q => validField p.2 q.2
      | none => false)
  | _ => false

/-- An event envelope (`PerikanEventData`).  The statically typed fields
(id bigint, time number, from number, to number[], tags string[]) are
represented by their Lean types; only the payload stays dynamic, because
only the payload is checked against a per-definition schema.  `from` and
`to` are Lean keywords / confusable, hence `fromW` and `toW`. -/
structure EventData where
  id : Int
  time : Int
  topic : String
  fromW : Int
  toW : List Int
  tags : List String
  payload : JVal

/-- Default options of an event definition (`PerikanEventDefaultOptions`).
The cache configuration only affects `safeParse`; no claim touches it, so
it is omitted. -/
structure PerikanEventDefaultOptions where
  defaultTags : Option (List String) := none
  defaultPayload : Option JVal := none

/-- An event definition (`PerikanEvent`): a topic bound to a payload
schema and default options. -/
structure PerikanEvent where
  topic : String
  payloadSchema : PayloadSchema
  opts : Option PerikanEventDefaultOptions := none

namespace PerikanEvent

/-- `this.opts?.defaultTags ?? []`. -/
def defTags (d : PerikanEvent) : List String :=
  (d.opts.bind (fun o => o.defaultTags)).getD []

/-- `this.opts?.defaultPayload ?? ({} as Payload)`. -/
def defPayload (d : PerikanEvent) : JVal :=
  (d.opts.bind (fun o => o.defaultPayload)).getD (.obj [])

/-- `validate(data)`: `eventSchema.safeParse(data).success`.  The
envelope schema extends `PerikanEventDataSchema` with the literal topic
and the payload schema; on a typed `EventData` the remaining fields
(id, time, from, to, tags) conform by construction, so validity reduces
to the topic literal match and the payload check. -/
def validate (d : PerikanEvent) (e : EventData) : Bool :=
  d.topic == e.topic && validPayload d.payloadSchema e.payload

/-- `_resolveArgs(payloadOrOpts, opts)` of src/event.ts.  An absent
argument is `undefined` (`JVal.undefined`). -/
def resolveArgs (d : PerikanEvent) (payloadOrOpts : JVal) (opts : JVal) :
    JVal × JVal :=
  let po :=
    if !opts.isUndef then
      (payloadOrOpts, opts)
    else if payloadOrOpts.truthy && payloadOrOpts.typeofIsObject &&
        (payloadOrOpts.hasKey "payload" || payloadOrOpts.hasKey "tags" ||
         payloadOrOpts.hasKey "from" || payloadOrOpts.hasKey "to") then
      (payloadOrOpts.jGet "payload", payloadOrOpts)
    else
      (payloadOrOpts, .undefined)
  let payload := if isEmpty po.1 then d.defPayload else po.1
  (payload, po.2)

/-- `_buildEventData(perikan, payload, options)`.  The ambient
`perikan.nextId()` and `Date.now()` values are the `newId` and `now`
arguments; `perikan.workerId` is `workerId`. -/
def buildEventData (d : PerikanEvent) (workerId newId now : Int)
    (payload : JVal) (options : JVal) : EventData :=
  { id := newId
    time := now
    topic := d.topic
    fromW :=
      match options.jGet "from" with
      | .num n => n
      | _ => workerId
    toW := (JVal.toIntList (options.jGet "to")).getD []
    tags := d.defTags ++ (JVal.toStrList (options.jGet "tags")).getD []
    payload := payload }

/-- `create(perikan, payloadOrOpts?, opts?)`: resolve the arguments,
validate the payload (`parsePayload` throws a ZodError on failure,
modelled as `Except.error`), then build the envelope. -/
def create (d : PerikanEvent) (workerId newId now : Int)
    (payloadOrOpts : JVal) (opts : JVal) : Except String EventData :=
  let pr := d.resolveArgs payloadOrOpts opts
  if validPayload d.payloadSchema pr.1 then
    .ok (d.buildEventData workerId newId now pr.1 pr.2)
  else
    .error "ValidationError"

/-- `createAsync`: identical to `create` except that the payload check
awaits `parsePayloadAsync`; on the single-threaded model the result is
the same value. -/
def createAsync (d : PerikanEvent) (workerId newId now : Int)
    (payloadOrOpts : JVal) (opts : JVal) : Except String EventData :=
  d.create workerId newId now payloadOrOpts opts

/-- `unsafeCreate`: the same construction without validation. -/
def unsafeCreate (d : PerikanEvent) (workerId newId now : Int)
    (payloadOrOpts : JVal) (opts : JVal) : EventData :=
  let pr := d.resolveArgs payloadOrOpts opts
  d.buildEventData workerId newId now pr.1 pr.2

end PerikanEvent

/-
The local event bus (src/bus.ts).

`handlersMap : Map<string, Set<EventHandler>>` maps topics to JS `Set`
objects.  The unsubscribe closure returned by `on` captures the *Set
object* (not the map entry), so sets are modelled as a heap
(`sets : List (List Nat)`, insertion-ordered, duplicate-free — JS `Set`
semantics) addressed by index, and the topic map stores indices into
that heap.  A handler is identified by a number; its behaviour during a
specific emit is supplied externally (`beh`, plus a settle delay for the
timeout race).  Each closure returned by `on` is recorded as
`(topic, set index, handler)`.
-/

/-- Outcome of `Promise.allSettled` for one handler task. -/
inductive Settled where
  | fulfilled : Settled
  | rejected : String → Settled

/-- The race of one handler task (settling after `delay` ms with result
`r`) against the timeout timer: with a positive `maxTimeout`, the timer
rejects with `Timeout` first when the task takes longer; otherwise the
task's own outcome wins.  A rejected outcome (handler throw, rejection,
or timeout) is captured by `allSettled`, never re-thrown. -/
def settleTask (maxTimeout : Int) (delay : Int) (r : Except String Unit) :
    Settled :=
  if maxTimeout > 0 && delay > maxTimeout then
    .rejected "Timeout"
  else
    match r with
    | .ok _ => .fulfilled
    | .error e => .rejected e

/-- Find the value of the first entry with the given key
(`Map.get` / `Map.has`; topic keys are unique by construction). -/
def assocFind (k : String) : List (String × Nat) → Option Nat
  | [] => none
  | p :: rest => if p.1 == k then some p.2 else assocFind k rest

/-- Read the i-th handler set of the heap (`[]` out of range; closures
only ever address live sets). -/
def nthSet : List (List Nat) → Nat → List Nat
  | [], _ => []
  | s :: _, 0 => s
  | _ :: rest, i + 1 => nthSet rest i

/-- Replace the i-th handler set of the heap. -/
def setNth : List (List Nat) → Nat → List Nat → List (List Nat)
  | [], _, _ => []
  | _ :: rest, 0, v => v :: rest
  | s :: rest, i + 1, v => s :: setNth rest i v

/-- `Set.add`: append the handler unless already present. -/
def setAdd (s : List Nat) (h : Nat) : List Nat :=
  if h ∈ s then s else s ++ [h]

/-- The local bus (`PerikanLocalBus`): construction-time options plus
the registry state. -/
structure PerikanLocalBus where
  workerId : Int
  maxTimeout : Int
  topics : List (String × Nat) := []
  sets : List (List Nat) := []
  closures : List (String × Nat × Nat) := []

/-- Construction options (`PerikanInternalBusOptions`). -/
structure PerikanInternalBusOptions where
  workerId : Option Int := none
  maxTimeout : Option Int := none

/-- The `PerikanLocalBus` constructor:
`maxTimeout = (options.maxTimeout ?? 0) > 0 ? it : 0`,
`workerId = options.workerId ?? 0`, empty registry. -/
def mkLocalBus (o : PerikanInternalBusOptions) : PerikanLocalBus :=
  let timeout := o.maxTimeout.getD 0
  { workerId := o.workerId.getD 0
    maxTimeout := if timeout > 0 then timeout else 0 }

/-- The empty bus used as the starting state of registry traces. -/
def initBus : PerikanLocalBus :=
  mkLocalBus { workerId := some 1, maxTimeout := none }

/-- `on(event, handler)`: ensure a set exists for the topic, add the
handler to it, and record the returned unsubscribe closure
`(topic, set index, handler)`. -/
def busOn (b : PerikanLocalBus) (topic : String) (h : Nat) :
    PerikanLocalBus :=
  match assocFind topic b.topics with
  | some sid =>
    { b with
      sets := setNth b.sets sid (setAdd (nthSet b.sets sid) h)
      closures := b.closures ++ [(topic, sid, h)] }
  | none =>
    let sid := b.sets.length
    { b with
      topics := b.topics ++ [(topic, sid)]
      sets := b.sets ++ [[h]]
      closures := b.closures ++ [(topic, sid, h)] }

/-- Invoke an unsubscribe closure `(topic, sid, h)`: delete the handler
from the captured set; if the set became empty, delete the topic entry
from the map (`Map.delete`, modelled as a key filter since topic keys
are unique). -/
def runUnsub (b : PerikanLocalBus) (c : String × Nat × Nat) :
    PerikanLocalBus :=
  let s := nthSet b.sets c.2.1
  let s' := s.erase c.2.2
  let b' := { b with sets := setNth b.sets c.2.1 s' }
  if s'.isEmpty then
    { b' with topics := b'.topics.filter (fun p => p.1 != c.1) }
  else
    b'

/-- A registry operation: a subscription, or the invocation of the i-th
unsubscribe closure returned so far (invoking an index never handed out
is a no-op; JS callers can only hold returned closures). -/
inductive BusOp where
  | on : String → Nat → BusOp
  | unsub : Nat → BusOp

/-- Apply one registry operation. -/
def applyOp (b : PerikanLocalBus) : BusOp → PerikanLocalBus
  | .on t h => busOn b t h
  | .unsub i =>
    match b.closures.get? i with
    | some c => runUnsub b c
    | none => b

/-- Apply a sequence of registry operations to the empty bus. -/
def applyOps (ops : List BusOp) : PerikanLocalBus :=
  ops.foldl applyOp initBus

/-- `emit(event, eventData)`: validate, apply the worker filter, then
invoke every registered handler of the topic, racing each against the
timeout and awaiting all outcomes with `Promise.allSettled`.  `beh h e`
is handler `h`'s result on envelope `e` (a synchronous throw and an
asynchronous rejection both surface as `Except.error`), `delay h` is its
settle time.  The returned list holds one settled outcome per invoked
handler; `Except.error` would model a rejection of `emit` itself. -/
def emit (b : PerikanLocalBus) (ev : PerikanEvent) (e : EventData)
    (beh : Nat → EventData → Except String Unit) (delay : Nat → Int) :
    Except String (List (Nat × Settled)) :=
  if !(ev.validate e) then
    .ok []
  else if e.toW.isEmpty || e.toW.contains b.workerId then
    match assocFind ev.topic b.topics with
    | some sid =>
      .ok ((nthSet b.sets sid).map
        (fun h => (h, settleTask b.maxTimeout (delay h) (beh h e))))
    | none => .ok []
  else
    .ok []

/-
The snowflake id generator (src/snowflake.ts).

`nextId` reads `Date.now()` once at entry (the `now` argument).  When
the sequence wraps to 0 inside the same millisecond the source
busy-waits until `Date.now() > lastMs`, but it neither re-reads `now`
nor updates any state, so the wait only constrains the clock readings of
*later* calls and the call itself returns the id computed from the stale
`now` and sequence 0.
-/

/-- The epoch constant `1704067200000` (2024-01-01 UTC). -/
def snowEpoch : Nat := 1704067200000

/-- `workerIdBits = 10`. -/
def workerIdBits : Nat := 10

/-- `sequenceBits = 12`. -/
def sequenceBits : Nat := 12

/-- `maxSequence = (1 << sequenceBits) - 1`. -/
def maxSequence : Nat := (1 <<< sequenceBits) - 1

/-- Generator state: `lastMs` and `sequence` (both initially 0), plus
the fixed worker id.  `Date.now()` is past the epoch, and worker ids
are the usual 0..1023 range, so `Nat` suffices for the bit arithmetic
`BigInt(now - epoch) << 22 | BigInt(workerId) << 12 | BigInt(seq)`. -/
structure SnowFlake where
  workerId : Nat
  lastMs : Nat := 0
  sequence : Nat := 0

/-- The id assembled from a timestamp, worker id and sequence number. -/
def mkId (w now seq : Nat) : Nat :=
  ((now - snowEpoch) <<< (workerIdBits + sequenceBits)) |||
    (w <<< sequenceBits) ||| seq

/-- One `nextId()` call at clock reading `now`: same millisecond →
increment the sequence under the wraparound mask (busy-waiting when it
wraps, which changes nothing the call returns); new millisecond → reset
the sequence and record the timestamp. -/
def snowNextId (s : SnowFlake) (now : Nat) : Nat × SnowFlake :=
  if now = s.lastMs then
    let seq := (s.sequence + 1) &&& maxSequence
    (mkId s.workerId now seq, { s with sequence := seq })
  else
    (mkId s.workerId now 0, { s with sequence := 0, lastMs := now })

/-- Run a sequence of `nextId()` calls at the given clock readings,
collecting the returned ids. -/
def snowRun (s : SnowFlake) : List Nat → List Nat × SnowFlake
  | [] => ([], s)
  | t :: ts =>
    let r := snowNextId s t
    let rest := snowRun r.2 ts
    (r.1 :: rest.1, rest.2)

/-
The flow pipeline (src/matcher.ts).

The flow context is one shared mutable JS object; `Object.assign`
updates existing keys in place and appends new ones.  It is modelled as
an insertion-ordered key/value list.  A step is a function from the
context to a result value, where a synchronous throw or an awaited
rejection is `Except.error`.  (A step that mutates the context object
directly, rather than returning an object to merge, is outside the
model; the pipeline contract works through return values.)
-/

/-- The flow context object: an insertion-ordered JS object. -/
abbrev Ctx : Type := List (String × JVal)

/-- Read a context property. -/
def ctxGet (ctx : Ctx) (k : String) : Option JVal :=
  (List.find? (fun p => p.1 == k) ctx).map (fun p => p.2)

/-- One `target[key] = value` assignment of `Object.assign`: update the
existing property in place, else append it. -/
def assignKey (ctx : Ctx) (kv : String × JVal) : Ctx :=
  if List.any ctx (fun p => p.1 == kv.1) then
    List.map (fun p => if p.1 == kv.1 then (p.1, kv.2) else p) ctx
  else
    ctx ++ [kv]

/-- `Object.assign(ctx, r)`: assign every own key of `r` in order (a
no-op when `r` is not a plain object; the source guards for that). -/
def objAssign (ctx : Ctx) (r : JVal) : Ctx :=
  match r with
  | .obj kvs => kvs.foldl assignKey ctx
  | _ => ctx

/-- A middleware step (`PipeFn`): context to awaited result. -/
def PipeStep : Type := Ctx → Except String JVal

/-- `result === false` (strict equality, so `0`, `null` etc. do not
stop the chain). -/
def isFalseV : JVal → Bool
  | .bool b => !b
  | _ => false

/-- The merge applied to one step result:
`if (result && typeof result === "object" && !Array.isArray(result))
 Object.assign(ctx, result)`. -/
def mergeResult (ctx : Ctx) (r : JVal) : Ctx :=
  if r.truthy && r.typeofIsObject && !r.isArr then objAssign ctx r else ctx

/-- How a dispatch of the middleware chain ended. -/
inductive FlowStatus where
  | completed : FlowStatus
  | stopped : FlowStatus
  | failed : String → FlowStatus

/-- The `for (const pipeFn of this.pipeFn)` loop of `build()`: run the
steps in registration order, awaiting each result; a throw/rejection
ends the loop with `failed`, a literal `false` ends it with `stopped`,
any other result is merged (when it is a truthy non-array object) and
the loop continues.  Returns the context as of the end of the loop, the
number of steps invoked, and the status. -/
def runPipe : List PipeStep → Ctx → Ctx × Nat × FlowStatus
  | [], ctx => (ctx, 0, .completed)
  | f :: rest, ctx =>
    match f ctx with
    | .error e => (ctx, 1, .failed e)
    | .ok r =>
      if isFalseV r then
        (ctx, 1, .stopped)
      else
        let res := runPipe rest (mergeResult ctx r)
        (res.1, res.2.1 + 1, res.2.2)

/-- A flow (`PerikanFlow`): the accumulated steps and whether a `catch`
handler was registered.  (What the catch handler is *called with* is
reported in `HandlerRun.caught`; the handler itself only observes those
values.) -/
structure PerikanFlow where
  pipeFn : List PipeStep
  catchFn : Bool := false

namespace PerikanFlow

/-- `pipe(fn)` appends a step. -/
def pipe (fl : PerikanFlow) (f : PipeStep) : PerikanFlow :=
  { fl with pipeFn := fl.pipeFn ++ [f] }

/-- `filter(pred)` appends `async (ctx) => { if (!pred(ctx)) return false }`
(which returns `undefined` when the predicate holds). -/
def filter (fl : PerikanFlow) (pred : Ctx → Bool) : PerikanFlow :=
  fl.pipe (fun ctx => if !pred ctx then .ok (.bool false) else .ok .undefined)

/-- `handle(fn)` appends `async (ctx) => { await fn(ctx) }` (which
returns `undefined`, propagating any throw). -/
def handle (fl : PerikanFlow) (f : Ctx → Except String Unit) : PerikanFlow :=
  fl.pipe (fun ctx => (f ctx).map (fun _ => .undefined))

/-- `catch(fn)` registers the single error handler. -/
def catchWith (fl : PerikanFlow) : PerikanFlow :=
  { fl with catchFn := true }

end PerikanFlow

/-- `createFlowContext(perikan, eventData)`: the fresh per-dispatch
context with its five initial properties.  The `perikan` facade
reference is represented by an object carrying its worker id. -/
def createFlowContext (wId flowId : Int) (e : EventData) : Ctx :=
  [("flowId", .num flowId),
   ("perikan", .obj [("workerId", .num wId)]),
   ("topic", .str e.topic),
   ("data", .obj [("id", .num e.id), ("time", .num e.time),
                  ("topic", .str e.topic), ("from", .num e.fromW),
                  ("to", .arr (e.toW.map JVal.num)),
                  ("tags", .arr (e.tags.map JVal.str)),
                  ("payload", e.payload)]),
   ("payload", e.payload)]

/-- The observable outcome of one invocation of the handler returned by
`build()`.  The handler always resolves: the try/catch around the loop
swallows the error after the optional `catchFn` call, and `caught`
records the `(ctx, err)` pair the catch handler is invoked with (at most
once, `none` when no error occurred or no handler is registered). -/
structure HandlerRun where
  finalCtx : Ctx
  invoked : Nat
  status : FlowStatus
  caught : Option (Ctx × String)

/-- One invocation of the handler returned by `build()` on an incoming
envelope: create the fresh context, run the middleware chain, and route
a failure to the registered catch handler if any. -/
def buildRun (fl : PerikanFlow) (wId flowId : Int) (e : EventData) :
    HandlerRun :=
  let ctx := createFlowContext wId flowId e
  let res := runPipe fl.pipeFn ctx
  { finalCtx := res.1
    invoked := res.2.1
    status := res.2.2
    caught :=
      match res.2.2 with
      | .failed err => if fl.catchFn then some (res.1, err) else none
      | _ => none }

/-! Helper lemmas about the snowflake generator. -/

theorem maxSequence_eq : maxSequence = 4095 := rfl

theorem and_maxSequence (n : Nat) : n &&& maxSequence = n % 4096 := by
  have h := Nat.and_pow_two_sub_one_eq_mod n 12
  norm_num at h
  simpa [maxSequence_eq] using h

theorem snowNextId_sameMs (w T seq : Nat) :
    snowNextId ⟨w, T, seq⟩ T =
      (mkId w T ((seq + 1) % 4096), ⟨w, T, (seq + 1) % 4096⟩) := by
  simp [snowNextId, and_maxSequence]

theorem snowNextId_newMs (s : SnowFlake) (now : Nat) (h : ¬ now = s.lastMs) :
    snowNextId s now =
      (mkId s.workerId now 0, { s with sequence := 0, lastMs := now }) := by
  simp [snowNextId, h]

theorem snowRun_cons (s : SnowFlake) (t : Nat) (ts : List Nat) :
    snowRun s (t :: ts) =
      ((snowNextId s t).1 :: (snowRun (snowNextId s t).2 ts).1,
        (snowRun (snowNextId s t).2 ts).2) := rfl

theorem snowState_sameMs (w T : Nat) :
    ∀ (k seq : Nat), seq + k ≤ 4095 →
      (snowRun ⟨w, T, seq⟩ (List.replicate k T)).2 = ⟨w, T, seq + k⟩ := by
  intro k
  induction k with
  | zero => intro seq _; simp [snowRun]
  | succ k ih =>
    intro seq hle
    have hmod : (seq + 1) % 4096 = seq + 1 := Nat.mod_eq_of_lt (by omega)
    have hrec := ih (seq + 1) (by omega)
    have harith : seq + 1 + k = seq + (k + 1) := by omega
    rw [List.replicate_succ, snowRun_cons]
    simp only [snowNextId_sameMs, hmod]
    rw [hrec, harith]

theorem snowRun_append (s : SnowFlake) (l1 l2 : List Nat) :
    snowRun s (l1 ++ l2) =
      ((snowRun s l1).1 ++ (snowRun (snowRun s l1).2 l2).1,
        (snowRun (snowRun s l1).2 l2).2) := by
  induction l1 generalizing s with
  | nil => simp [snowRun]
  | cons t ts ih => simp [snowRun, ih]

/-- A burst of 4097 `nextId()` calls whose clock readings all fall in the
millisecond `snowEpoch + 1` (an admissible schedule: the clock is
non-decreasing, and the busy-wait triggered by the sequence wraparound of
the 4097th call only constrains readings *after* the burst).  The first
call returns `mkId 1 (snowEpoch+1) 0`; the 4097th wraps the sequence to
0, busy-waits, and — because `now` is not re-read — returns the very same
id again. -/
theorem snow_trace_split :
    (snowRun { workerId := 1 } (List.replicate 4097 (snowEpoch + 1))).1 =
      mkId 1 (snowEpoch + 1) 0 ::
        ((snowRun ⟨1, snowEpoch + 1, 0⟩ (List.replicate 4095 (snowEpoch + 1))).1 ++
          [mkId 1 (snowEpoch + 1) 0]) := by
  have hrep : List.replicate 4097 (snowEpoch + 1) =
      (snowEpoch + 1) :: (List.replicate 4095 (snowEpoch + 1) ++ [snowEpoch + 1]) := by
    have h7 : (4097 : Nat) = 4096 + 1 := by norm_num
    have h6 : (4096 : Nat) = 4095 + 1 := by norm_num
    rw [h7, List.replicate_succ, h6, List.replicate_succ' 4095 (snowEpoch + 1)]
  have hfirst : snowNextId { workerId := 1 } (snowEpoch + 1) =
      (mkId 1 (snowEpoch + 1) 0, ⟨1, snowEpoch + 1, 0⟩) :=
    snowNextId_newMs { workerId := 1 } (snowEpoch + 1) (Nat.succ_ne_zero snowEpoch)
  have hmidstate : (snowRun ⟨1, snowEpoch + 1, 0⟩
      (List.replicate 4095 (snowEpoch + 1))).2 = ⟨1, snowEpoch + 1, 4095⟩ := by
    have h := snowState_sameMs 1 (snowEpoch + 1) 4095 0 (by omega)
    simp only [Nat.zero_add] at h
    exact h
  have hlast : snowRun ⟨1, snowEpoch + 1, 4095⟩ [snowEpoch + 1] =
      ([mkId 1 (snowEpoch + 1) 0], ⟨1, snowEpoch + 1, 0⟩) := by
    rw [snowRun_cons, snowNextId_sameMs]
    norm_num
    exact ⟨rfl, rfl⟩
  rw [hrep, snowRun_cons, hfirst]
  rw [snowRun_append, hmidstate, hlast]

/-- C1: the claim states that the ids returned by successive `nextId()`
calls of one generator under non-decreasing wall-clock time are strictly
increasing, and that even when the sequence space is exhausted within one
millisecond no id is ever reused.  The code violates this: after the
sequence wraps to 0 the busy-wait runs, but `now` is not re-read and
`lastMs` is not advanced, so the 4097th call of a same-millisecond burst
returns exactly the id of the first call.  On the admissible 4097-call
schedule at clock reading `snowEpoch + 1`, the returned id list is
neither duplicate-free nor strictly increasing. -/
theorem c1_snowflake_exhaustion_reuses_id :
    ¬ (snowRun { workerId := 1 } (List.replicate 4097 (snowEpoch + 1))).1.Nodup ∧
    ¬ List.Chain' (· < ·)
        (snowRun { workerId := 1 } (List.replicate 4097 (snowEpoch + 1))).1 := by
  rw [snow_trace_split]
  set x := mkId 1 (snowEpoch + 1) 0 with hx
  set mid := (snowRun ⟨1, snowEpoch + 1, 0⟩ (List.replicate 4095 (snowEpoch + 1))).1
    with hmid
  have hmem : x ∈ mid ++ [x] := List.mem_append_right mid (List.mem_singleton_self x)
  constructor
  · intro hnd
    exact (List.nodup_cons.mp hnd).1 hmem
  · intro hch
    have hpw : (x :: (mid ++ [x])).Pairwise (· < ·) := List.chain'_iff_pairwise.mp hch
    exact lt_irrefl x ((List.pairwise_cons.mp hpw).1 x hmem)

/-! Concrete fixtures used by the witnesses: a definition with one
required string field, a bus for worker 1 with two handlers on its
topic, and a handler behaviour where handler 7 fails and handler 8
succeeds. -/

def exSchema : PayloadSchema := ⟨[("foo", .fstr)]⟩

def exDef : PerikanEvent := { topic := "t", payloadSchema := exSchema }

def exEnv : EventData :=
  { id := 1, time := 2, topic := "t", fromW := 1, toW := [], tags := [],
    payload := .obj [("foo", .str "a")] }

def exBus : PerikanLocalBus :=
  { workerId := 1, maxTimeout := 0, topics := [("t", 0)],
    sets := [[7, 8]], closures := [("t", 0, 7), ("t", 0, 8)] }

def exBeh : Nat → EventData → Except String Unit :=
  fun h _ => if h == 7 then .error "boom" else .ok ()

def exDelay : Nat → Int := fun _ => 0

/-- C2: for a topic with registered handlers and an envelope that passes
validation and the worker filter, `emit` invokes every handler of the
topic (the settled-outcome list is exactly the handler set, each entry
computed from that handler's own behaviour alone, so no handler's
failure prevents another's invocation or completion), a throwing or
rejecting handler is captured as a rejected settlement, and `emit`
always resolves (`Except.ok`) — it never rejects, for any inputs. -/
theorem c2_emit_settles_all_handlers
    (b : PerikanLocalBus) (ev : PerikanEvent) (e : EventData)
    (beh : Nat → EventData → Except String Unit) (delay : Nat → Int)
    (sid : Nat)
    (hv : ev.validate e = true)
    (hw : (e.toW.isEmpty || e.toW.contains b.workerId) = true)
    (ht : assocFind ev.topic b.topics = some sid) :
    emit b ev e beh delay =
      .ok ((nthSet b.sets sid).map
        (fun h => (h, settleTask b.maxTimeout (delay h) (beh h e)))) ∧
    (∀ h ∈ nthSet b.sets sid,
      (h, settleTask b.maxTimeout (delay h) (beh h e)) ∈
        (nthSet b.sets sid).map
          (fun h => (h, settleTask b.maxTimeout (delay h) (beh h e)))) ∧
    (∀ h msg, beh h e = .error msg →
      ∃ r, settleTask b.maxTimeout (delay h) (beh h e) = .rejected r) ∧
    (∀ (b' : PerikanLocalBus) (ev' : PerikanEvent) (e' : EventData)
        (beh' : Nat → EventData → Except String Unit) (delay' : Nat → Int),
      ∃ l, emit b' ev' e' beh' delay' = .ok l) := by
  refine ⟨?_, ?_, ?_, ?_⟩
  · simp only [emit, hv, hw, ht, Bool.not_true, Bool.false_eq_true, if_false,
      if_true]
  · intro h hm
    exact List.mem_map_of_mem _ hm
  · intro h msg hmsg
    rw [hmsg]
    unfold settleTask
    by_cases hc : (decide (b.maxTimeout > 0) && decide (delay h > b.maxTimeout)) = true
    · exact ⟨"Timeout", by simp [hc]⟩
    · exact ⟨msg, by simp [hc]⟩
  · intro b' ev' e' beh' delay'
    unfold emit
    by_cases hv' : ev'.validate e' = true
    · by_cases hw' : (e'.toW.isEmpty || e'.toW.contains b'.workerId) = true
      · cases hfind : assocFind ev'.topic b'.topics with
        | none =>
          exact ⟨[], by simp only [hv', hw', hfind, Bool.not_true,
            Bool.false_eq_true, if_false, if_true]⟩
        | some sid' =>
          refine ⟨(nthSet b'.sets sid').map
            (fun h => (h, settleTask b'.maxTimeout (delay' h) (beh' h e'))), ?_⟩
          simp only [hv', hw', hfind, Bool.not_true,
            Bool.false_eq_true, if_false, if_true]
      · have hw2 : (e'.toW.isEmpty || e'.toW.contains b'.workerId) = false :=
          Bool.eq_false_iff.mpr hw'
        exact ⟨[], by simp only [hv', hw2, Bool.not_true,
          Bool.false_eq_true, if_false, if_true]⟩
    · have hv2 : ev'.validate e' = false := Bool.eq_false_iff.mpr hv'
      exact ⟨[], by simp only [hv2, Bool.not_false, if_true]⟩

/-- Witness for C2 at a concrete instance: a bus with two handlers on
topic `t`, handler 7 throwing and handler 8 resolving; `emit` resolves
with both settled outcomes. -/
theorem c2_emit_settles_all_handlers_witness :
    emit exBus exDef exEnv exBeh exDelay =
      .ok [(7, Settled.rejected "boom"), (8, Settled.fulfilled)] := by
  have h := c2_emit_settles_all_handlers exBus exDef exEnv exBeh exDelay 0
    (by decide) (by decide) (by decide)
  rw [h.1]
  rfl

/-- C3: an envelope that fails the definition's envelope schema makes
`emit` return immediately — no handler is invoked and no error surfaces
(it resolves with the empty outcome list); consequently whenever `emit`
delivered to at least one handler, the envelope passed `validate`. -/
theorem c3_emit_drops_invalid_envelopes
    (b : PerikanLocalBus) (ev : PerikanEvent) (e : EventData)
    (beh : Nat → EventData → Except String Unit) (delay : Nat → Int)
    (hv : ev.validate e = false) :
    emit b ev e beh delay = .ok [] ∧
    (∀ (b' : PerikanLocalBus) (ev' : PerikanEvent) (e' : EventData)
        (beh' : Nat → EventData → Except String Unit) (delay' : Nat → Int)
        (l : List (Nat × Settled)),
      emit b' ev' e' beh' delay' = .ok l → l ≠ [] → ev'.validate e' = true) := by
  constructor
  · simp only [emit, hv, Bool.not_false, if_true]
  · intro b' ev' e' beh' delay' l hl hne
    by_cases hv' : ev'.validate e' = true
    · exact hv'
    · exfalso
      have hv2 : ev'.validate e' = false := Bool.eq_false_iff.mpr hv'
      have hok : emit b' ev' e' beh' delay' = .ok [] := by
        simp only [emit, hv2, Bool.not_false, if_true]
      rw [hok] at hl
      exact hne (Except.ok.inj hl.symm)

/-- An envelope whose payload misses the required `foo` field, so the
full envelope schema rejects it. -/
def exEnvBad : EventData :=
  { id := 1, time := 2, topic := "t", fromW := 1, toW := [], tags := [],
    payload := .obj [] }

/-- Witness for C3 at a concrete instance: the invalid envelope is
silently dropped even though topic `t` has two handlers. -/
theorem c3_emit_drops_invalid_envelopes_witness :
    emit exBus exDef exEnvBad exBeh exDelay = .ok [] :=
  (c3_emit_drops_invalid_envelopes exBus exDef exEnvBad exBeh exDelay
    (by decide)).1

/-- C5: the worker filter of `emit` on a bus with worker id `W0`: an
envelope with `to = []` is delivered to the topic's handlers regardless;
with `to = [W]` the handlers are invoked exactly when `W = W0`; with a
non-empty `to` not containing `W0`, `emit` resolves without invoking any
handler. -/
theorem c5_emit_worker_targeting
    (b : PerikanLocalBus) (ev : PerikanEvent) (e : EventData)
    (beh : Nat → EventData → Except String Unit) (delay : Nat → Int)
    (sid : Nat)
    (hv : ev.validate e = true)
    (ht : assocFind ev.topic b.topics = some sid) :
    (e.toW = [] →
      emit b ev e beh delay =
        .ok ((nthSet b.sets sid).map
          (fun h => (h, settleTask b.maxTimeout (delay h) (beh h e))))) ∧
    (∀ W : Int, e.toW = [W] →
      (W = b.workerId →
        emit b ev e beh delay =
          .ok ((nthSet b.sets sid).map
            (fun h => (h, settleTask b.maxTimeout (delay h) (beh h e))))) ∧
      (W ≠ b.workerId → emit b ev e beh delay = .ok [])) ∧
    (e.toW ≠ [] → b.workerId ∉ e.toW → emit b ev e beh delay = .ok []) := by
  refine ⟨?_, ?_, ?_⟩
  · intro hto
    have hw : (e.toW.isEmpty || e.toW.contains b.workerId) = true := by
      simp [hto]
    simp only [emit, hv, hw, ht, Bool.not_true, Bool.false_eq_true, if_false,
      if_true]
  · intro W hto
    constructor
    · intro heq
      have hw : (e.toW.isEmpty || e.toW.contains b.workerId) = true := by
        simp [hto, heq]
      simp only [emit, hv, hw, ht, Bool.not_true, Bool.false_eq_true, if_false,
        if_true]
    · intro hne
      have hw : (e.toW.isEmpty || e.toW.contains b.workerId) = false := by
        simp [hto]
        exact fun h => absurd h.symm hne
      simp only [emit, hv, hw, Bool.not_true, Bool.false_eq_true, if_false,
        if_true]
  · intro hne hnm
    have hw : (e.toW.isEmpty || e.toW.contains b.workerId) = false := by
      simp [List.isEmpty_iff, hne]
      exact hnm
    simp only [emit, hv, hw, Bool.not_true, Bool.false_eq_true, if_false,
      if_true]

/-- The broadcast envelope targeted at worker 1 (the bus's own id). -/
def exEnvTo1 : EventData :=
  { id := 1, time := 2, topic := "t", fromW := 1, toW := [1], tags := [],
    payload := .obj [("foo", .str "a")] }

/-- The envelope targeted at worker 2 (not the bus's id). -/
def exEnvTo2 : EventData :=
  { id := 1, time := 2, topic := "t", fromW := 1, toW := [2], tags := [],
    payload := .obj [("foo", .str "a")] }

/-- Witness for C5 at concrete instances: broadcast and `to = [1]` are
delivered on the worker-1 bus, `to = [2]` is not. -/
theorem c5_emit_worker_targeting_witness :
    emit exBus exDef exEnv exBeh exDelay =
      .ok [(7, Settled.rejected "boom"), (8, Settled.fulfilled)] ∧
    emit exBus exDef exEnvTo1 exBeh exDelay =
      .ok [(7, Settled.rejected "boom"), (8, Settled.fulfilled)] ∧
    emit exBus exDef exEnvTo2 exBeh exDelay = .ok [] := by
  refine ⟨?_, ?_, ?_⟩
  · have h := (c5_emit_worker_targeting exBus exDef exEnv exBeh exDelay 0
      (by decide) (by decide)).1 rfl
    rw [h]
    rfl
  · have h := ((c5_emit_worker_targeting exBus exDef exEnvTo1 exBeh exDelay 0
      (by decide) (by decide)).2.1 1 rfl).1 rfl
    rw [h]
    rfl
  · exact ((c5_emit_worker_targeting exBus exDef exEnvTo2 exBeh exDelay 0
      (by decide) (by decide)).2.1 2 rfl).2 (by decide)

/-! Helper lemmas for envelope construction. -/

theorem toStrList_go_map (l : List String) :
    JVal.toStrList.go (l.map JVal.str) = some l := by
  induction l with
  | nil => rfl
  | cons s rest ih => simp [JVal.toStrList.go, ih]

theorem toStrList_map_str (l : List String) :
    JVal.toStrList (.arr (l.map JVal.str)) = some l := by
  simp [JVal.toStrList, toStrList_go_map]

/-- C6 (amended): for a *non-empty* payload (one the empty-payload
fallback of `_resolveArgs` does not replace), `create` with call-site
tags returns an envelope whose payload is exactly the input and whose
tags are the definition's default tags concatenated with the call-site
tags in that order when the payload conforms to the schema, and fails
with a ValidationError (producing no envelope) when the payload misses a
required field.  The original claim quantified over all payloads, but an
empty payload is replaced by the definition's `defaultPayload` before
validation — see the counterexample. -/
theorem c6_create_payload_and_tags (d : PerikanEvent) (w newId now : Int)
    (p : JVal) (tags : List String) (hne : isEmpty p = false) :
    (validPayload d.payloadSchema p = true →
      d.create w newId now p (.obj [("tags", .arr (tags.map JVal.str))]) =
        .ok { id := newId, time := now, topic := d.topic, fromW := w, toW := [],
              tags := d.defTags ++ tags, payload := p }) ∧
    (validPayload d.payloadSchema p = false →
      d.create w newId now p (.obj [("tags", .arr (tags.map JVal.str))]) =
        .error "ValidationError") := by
  have hra : d.resolveArgs p (.obj [("tags", .arr (tags.map JVal.str))]) =
      (p, .obj [("tags", .arr (tags.map JVal.str))]) := by
    simp [PerikanEvent.resolveArgs, JVal.isUndef, hne]
  constructor
  · intro hvp
    simp only [PerikanEvent.create, hra, hvp, if_true]
    simp [PerikanEvent.buildEventData, JVal.jGet, JVal.toIntList,
      toStrList_map_str]
  · intro hvp
    simp only [PerikanEvent.create, hra, hvp, Bool.false_eq_true, if_false]

/-- A definition whose schema requires a string field `foo` and whose
default options carry a conforming `defaultPayload`. -/
def exDefDP : PerikanEvent :=
  { topic := "t", payloadSchema := exSchema,
    opts := some { defaultPayload := some (.obj [("foo", .str "x")]) } }

/-- Counterexample to C6 as stated: the empty payload `{}` misses the
required field `foo` of the schema, yet `create` does not fail with a
ValidationError — `_resolveArgs` replaces the empty payload with the
definition's `defaultPayload` before validation, and an envelope is
produced (whose payload is the default, not the input). -/
theorem c6_create_counterexample :
    validPayload exSchema (.obj []) = false ∧
    PerikanEvent.create exDefDP 1 5 100 (.obj []) .undefined =
      .ok { id := 5, time := 100, topic := "t", fromW := 1, toW := [],
            tags := [], payload := .obj [("foo", .str "x")] } :=
  ⟨by decide, rfl⟩

/-- Witness for C6 at concrete instances: a conforming non-empty payload
passes through unchanged with `defaultTags ++ tags`, and a non-empty
payload missing the required field fails with a ValidationError. -/
theorem c6_create_payload_and_tags_witness :
    isEmpty (JVal.obj [("foo", JVal.str "a")]) = false ∧
    validPayload exDef.payloadSchema (.obj [("foo", .str "a")]) = true ∧
    exDef.create 1 5 100 (.obj [("foo", .str "a")])
        (.obj [("tags", .arr [.str "t1"])]) =
      .ok { id := 5, time := 100, topic := "t", fromW := 1, toW := [],
            tags := ["t1"], payload := .obj [("foo", .str "a")] } ∧
    isEmpty (JVal.obj [("bar", JVal.num 1)]) = false ∧
    validPayload exDef.payloadSchema (.obj [("bar", .num 1)]) = false ∧
    exDef.create 1 5 100 (.obj [("bar", .num 1)])
        (.obj [("tags", .arr [.str "t1"])]) = .error "ValidationError" := by
  refine ⟨by decide, by decide, ?_, by decide, by decide, ?_⟩
  · have h := (c6_create_payload_and_tags exDef 1 5 100
      (.obj [("foo", .str "a")]) ["t1"] (by decide)).1 (by decide)
    simpa [PerikanEvent.defTags, exDef] using h
  · exact (c6_create_payload_and_tags exDef 1 5 100
      (.obj [("bar", .num 1)]) ["t1"] (by decide)).2 (by decide)

/-! The claim-side description of the argument resolution, written from
the specification's wording, to be compared with `resolveArgs` (which is
written from the source). -/

/-- Does the value carry any of the option-object keys? -/
def hasAnyOptKey (v : JVal) : Bool :=
  v.hasKey "payload" || v.hasKey "tags" || v.hasKey "from" || v.hasKey "to"

/-- Is the value a non-null object (in the JavaScript sense, where
arrays are objects too)? -/
def isNonNullObject : JVal → Bool
  | .obj _ => true
  | .arr _ => true
  | _ => false

/-- Does an object value have no own keys? -/
def hasNoOwnKeys : JVal → Bool
  | .obj kvs => kvs.isEmpty
  | .arr xs => xs.isEmpty
  | _ => false

/-- Is the value the JavaScript null? -/
def isNullV : JVal → Bool
  | .null => true
  | _ => false

/-- The claim's description of an absent payload: undefined, null, or an
object with no own keys. -/
def emptyishClaim (v : JVal) : Bool :=
  v.isUndef || isNullV v || hasNoOwnKeys v

/-- The claim's description of single-argument resolution: a non-null
object having any of the keys payload/tags/from/to is treated as the
options object and its `payload` field is taken as the payload;
otherwise the argument itself is the payload; an absent payload is
replaced by the definition's default payload, else the empty object. -/
def resolveArgsClaim (d : PerikanEvent) (v : JVal) : JVal × JVal :=
  let isOpts := isNonNullObject v &&
    (v.hasKey "payload" || v.hasKey "tags" || v.hasKey "from" || v.hasKey "to")
  let p0 := if isOpts then v.jGet "payload" else v
  let o := if isOpts then v else .undefined
  (if emptyishClaim p0 then d.defPayload else p0, o)

theorem truthyTypeof_eq (v : JVal) :
    (v.truthy && v.typeofIsObject) = isNonNullObject v := by
  cases v <;> simp [JVal.truthy, JVal.typeofIsObject, isNonNullObject]

theorem emptyishClaim_eq (v : JVal) : emptyishClaim v = isEmpty v := by
  cases v <;> rfl

/-- C7: with exactly one non-facade argument (the second argument
absent, i.e. undefined), the source's `_resolveArgs` computes exactly
the claim's resolution (`resolveArgsClaim`), and `create`, `createAsync`
and `unsafeCreate` all build their envelope from that resolved payload
and options. -/
theorem c7_single_argument_resolution (d : PerikanEvent) (w newId now : Int)
    (v : JVal) :
    d.resolveArgs v .undefined = resolveArgsClaim d v ∧
    d.unsafeCreate w newId now v .undefined =
      d.buildEventData w newId now (resolveArgsClaim d v).1
        (resolveArgsClaim d v).2 ∧
    d.create w newId now v .undefined =
      (if validPayload d.payloadSchema (resolveArgsClaim d v).1 then
        .ok (d.buildEventData w newId now (resolveArgsClaim d v).1
          (resolveArgsClaim d v).2)
      else .error "ValidationError") ∧
    d.createAsync w newId now v .undefined =
      (if validPayload d.payloadSchema (resolveArgsClaim d v).1 then
        .ok (d.buildEventData w newId now (resolveArgsClaim d v).1
          (resolveArgsClaim d v).2)
      else .error "ValidationError") := by
  have hra : d.resolveArgs v .undefined = resolveArgsClaim d v := by
    unfold PerikanEvent.resolveArgs resolveArgsClaim
    simp only [JVal.isUndef, Bool.not_true, Bool.false_eq_true, if_false,
      truthyTypeof_eq, emptyishClaim_eq]
    by_cases hc : (isNonNullObject v &&
        (v.hasKey "payload" || v.hasKey "tags" || v.hasKey "from" ||
          v.hasKey "to")) = true <;>
      simp [hc]
  refine ⟨hra, ?_, ?_, ?_⟩
  · simp only [PerikanEvent.unsafeCreate, hra]
  · simp only [PerikanEvent.create, hra]
  · simp only [PerikanEvent.createAsync, PerikanEvent.create, hra]

/-! Helper lemmas about the flow context and `Object.assign`. -/

theorem ctxGet_nil (k : String) : ctxGet [] k = none := rfl

theorem ctxGet_cons (p : String × JVal) (rest : Ctx) (k : String) :
    ctxGet (p :: rest) k =
      if p.1 == k then some p.2 else ctxGet rest k := by
  by_cases h : (p.1 == k) = true <;> simp [ctxGet, List.find?_cons, h]

theorem ctxGet_append (l1 l2 : Ctx) (k : String) :
    ctxGet (l1 ++ l2) k =
      match ctxGet l1 k with
      | some v => some v
      | none => ctxGet l2 k := by
  induction l1 with
  | nil => simp [ctxGet_nil]
  | cons p rest ih =>
    rw [List.cons_append, ctxGet_cons, ctxGet_cons]
    by_cases h : p.1 = k <;> simp [h, ih]

theorem ctxGet_none_of_not_any (l : Ctx) (k : String)
    (h : List.any l (fun p => p.1 == k) = false) : ctxGet l k = none := by
  induction l with
  | nil => rfl
  | cons p rest ih =>
    rw [List.any_cons] at h
    rw [ctxGet_cons]
    cases hb : (p.1 == k) with
    | true => rw [hb] at h; simp at h
    | false =>
      rw [hb] at h
      simp only [Bool.false_or] at h
      rw [if_neg (by simp [hb])]
      exact ih h

theorem ctxGet_map_update_ne (l : Ctx) (k0 k : String) (v : JVal)
    (h : ¬ k0 = k) :
    ctxGet (l.map (fun p => if p.1 == k0 then (p.1, v) else p)) k =
      ctxGet l k := by
  induction l with
  | nil => rfl
  | cons p rest ih =>
    rw [List.map_cons]
    by_cases hp : p.1 = k0
    · have hpk : ¬ p.1 = k := fun hh => h (hp ▸ hh)
      rw [if_pos (by simp [hp]), ctxGet_cons, ctxGet_cons]
      rw [if_neg (by simp [hpk]), if_neg (by simp [hpk])]
      exact ih
    · rw [if_neg (by simp [hp]), ctxGet_cons, ctxGet_cons]
      by_cases hk : p.1 = k
      · rw [if_pos (by simp [hk]), if_pos (by simp [hk])]
      · rw [if_neg (by simp [hk]), if_neg (by simp [hk])]
        exact ih

theorem ctxGet_map_update_self (l : Ctx) (k0 : String) (v : JVal)
    (h : List.any l (fun p => p.1 == k0) = true) :
    ctxGet (l.map (fun p => if p.1 == k0 then (p.1, v) else p)) k0 =
      some v := by
  induction l with
  | nil => simp at h
  | cons p rest ih =>
    rw [List.map_cons]
    by_cases hp : p.1 = k0
    · rw [if_pos (by simp [hp]), ctxGet_cons, if_pos (by simp [hp])]
    · simp only [List.any_cons] at h
      have h2 : List.any rest (fun q => q.1 == k0) = true := by
        rcases Bool.or_eq_true_iff.mp h with h1 | h1
        · exact absurd (eq_of_beq h1) hp
        · exact h1
      rw [if_neg (by simp [hp]), ctxGet_cons, if_neg (by simp [hp])]
      exact ih h2

theorem ctxGet_assignKey (ctx : Ctx) (kv : String × JVal) (k : String) :
    ctxGet (assignKey ctx kv) k =
      if kv.1 == k then some kv.2 else ctxGet ctx k := by
  by_cases hany : List.any ctx (fun p => p.1 == kv.1) = true
  · by_cases hk : kv.1 = k
    · subst hk
      unfold assignKey
      rw [if_pos hany, ctxGet_map_update_self ctx kv.1 kv.2 hany]
      simp
    · unfold assignKey
      rw [if_pos hany, ctxGet_map_update_ne ctx kv.1 k kv.2 hk]
      simp [hk]
  · have hany2 : List.any ctx (fun p => p.1 == kv.1) = false :=
      Bool.eq_false_iff.mpr hany
    by_cases hk : kv.1 = k
    · subst hk
      have hnone : ctxGet ctx kv.1 = none :=
        ctxGet_none_of_not_any ctx kv.1 hany2
      unfold assignKey
      rw [if_neg hany, ctxGet_append, hnone, ctxGet_cons]
      simp
    · unfold assignKey
      rw [if_neg hany, ctxGet_append]
      simp only [ctxGet_cons, ctxGet_nil,
        show (kv.1 == k) = false by simp [hk], if_false]
      cases hc : ctxGet ctx k <;> simp [hk]

theorem ctxGet_objAssign (kvs : List (String × JVal)) :
    ∀ (ctx : Ctx) (k : String), (kvs.map Prod.fst).Nodup →
      ctxGet (objAssign ctx (.obj kvs)) k =
        match ctxGet kvs k with
        | some v => some v
        | none => ctxGet ctx k := by
  induction kvs with
  | nil => intro ctx k _; simp [objAssign, ctxGet_nil]
  | cons kv rest ih =>
    intro ctx k hnd
    have hnd2 : (rest.map Prod.fst).Nodup := (List.nodup_cons.mp hnd).2
    have hnm : kv.1 ∉ rest.map Prod.fst := (List.nodup_cons.mp hnd).1
    have hih := ih (assignKey ctx kv) k hnd2
    have hgoal : ctxGet (objAssign ctx (.obj (kv :: rest))) k =
        ctxGet (objAssign (assignKey ctx kv) (.obj rest)) k := rfl
    rw [hgoal, hih, ctxGet_cons, ctxGet_assignKey]
    by_cases hk : kv.1 = k
    · subst hk
      have hrest : ctxGet rest kv.1 = none := by
        apply ctxGet_none_of_not_any
        apply Bool.eq_false_iff.mpr
        intro hany
        obtain ⟨p, hm, hb⟩ := List.any_eq_true.mp hany
        exact hnm (eq_of_beq hb ▸ List.mem_map_of_mem Prod.fst hm)
      simp [hrest]
    · simp only [show (kv.1 == k) = false by simp [hk], if_false]
      cases hc : ctxGet rest k <;> simp [hc]

/-! Helper lemmas about the middleware loop. -/

theorem runPipe_nil (ctx : Ctx) : runPipe [] ctx = (ctx, 0, .completed) := rfl

theorem runPipe_cons_error (f : PipeStep) (rest : List PipeStep) (ctx : Ctx)
    (e : String) (hf : f ctx = .error e) :
    runPipe (f :: rest) ctx = (ctx, 1, .failed e) := by
  simp [runPipe, hf]

theorem runPipe_cons_stop (f : PipeStep) (rest : List PipeStep) (ctx : Ctx)
    (r : JVal) (hf : f ctx = .ok r) (hr : isFalseV r = true) :
    runPipe (f :: rest) ctx = (ctx, 1, .stopped) := by
  simp [runPipe, hf, hr]

theorem runPipe_cons_go (f : PipeStep) (rest : List PipeStep) (ctx : Ctx)
    (r : JVal) (hf : f ctx = .ok r) (hr : isFalseV r = false) :
    runPipe (f :: rest) ctx =
      ((runPipe rest (mergeResult ctx r)).1,
        (runPipe rest (mergeResult ctx r)).2.1 + 1,
        (runPipe rest (mergeResult ctx r)).2.2) := by
  simp [runPipe, hf, hr]

theorem runPipe_append_completed (pre : List PipeStep) :
    ∀ (rest : List PipeStep) (ctx c : Ctx),
      runPipe pre ctx = (c, pre.length, .completed) →
      runPipe (pre ++ rest) ctx =
        ((runPipe rest c).1, pre.length + (runPipe rest c).2.1,
          (runPipe rest c).2.2) := by
  induction pre with
  | nil =>
    intro rest ctx c h
    rw [runPipe_nil] at h
    have h1 : ctx = c := congrArg Prod.fst h
    subst h1
    simp
  | cons f pre ih =>
    intro rest ctx c h
    cases hf : f ctx with
    | error e =>
      rw [runPipe_cons_error f pre ctx e hf] at h
      exact absurd (congrArg (fun p => p.2.2) h) (by simp)
    | ok r =>
      cases hr : isFalseV r with
      | true =>
        rw [runPipe_cons_stop f pre ctx r hf hr] at h
        exact absurd (congrArg (fun p => p.2.2) h) (by simp)
      | false =>
        rw [runPipe_cons_go f pre ctx r hf hr] at h
        have h1 : (runPipe pre (mergeResult ctx r)).1 = c :=
          congrArg Prod.fst h
        have h2 : (runPipe pre (mergeResult ctx r)).2.1 + 1 =
            (f :: pre).length := congrArg (fun p => p.2.1) h
        have h3 : (runPipe pre (mergeResult ctx r)).2.2 = .completed :=
          congrArg (fun p => p.2.2) h
        have h2' : (runPipe pre (mergeResult ctx r)).2.1 = pre.length := by
          simp at h2
          omega
        have hpre : runPipe pre (mergeResult ctx r) =
            (c, pre.length, .completed) := by
          rw [← h1, ← h2', ← h3]
        have := ih rest (mergeResult ctx r) c hpre
        rw [List.cons_append, runPipe_cons_go f (pre ++ rest) ctx r hf hr, this]
        simp only [List.length_cons]
        have harith : pre.length + (runPipe rest c).2.1 + 1 =
            pre.length + 1 + (runPipe rest c).2.1 := by omega
        rw [harith]

/-- C8: step-result semantics of the built flow handler (steps run
strictly in registration order, each awaited before the next, which is
the sequential structure of `runPipe` itself): a step returning a plain
object (truthy, `typeof "object"`, not an array) is shallow-merged into
the shared context before the remaining steps run, and a merged key
shadows a same-named existing context key while untouched keys keep
their values; a step returning the literal `false` stops the dispatch —
exactly the steps so far ran, the status is `stopped`, and no error is
raised; any other result (`true`, `undefined`, a non-object) leaves the
context unchanged and the loop continues. -/
theorem c8_step_result_semantics :
    (∀ (f : PipeStep) (rest : List PipeStep) (ctx : Ctx)
        (kvs : List (String × JVal)),
      f ctx = .ok (.obj kvs) →
      runPipe (f :: rest) ctx =
        ((runPipe rest (objAssign ctx (.obj kvs))).1,
          (runPipe rest (objAssign ctx (.obj kvs))).2.1 + 1,
          (runPipe rest (objAssign ctx (.obj kvs))).2.2)) ∧
    (∀ (ctx : Ctx) (kvs : List (String × JVal)) (k : String),
      (kvs.map Prod.fst).Nodup →
      ctxGet (objAssign ctx (.obj kvs)) k =
        match ctxGet kvs k with
        | some v => some v
        | none => ctxGet ctx k) ∧
    (∀ (f : PipeStep) (rest : List PipeStep) (ctx : Ctx),
      f ctx = .ok (.bool false) →
      runPipe (f :: rest) ctx = (ctx, 1, .stopped)) ∧
    (∀ (f : PipeStep) (rest : List PipeStep) (ctx : Ctx) (r : JVal),
      f ctx = .ok r → isFalseV r = false →
      (r.truthy && r.typeofIsObject && !r.isArr) = false →
      runPipe (f :: rest) ctx =
        ((runPipe rest ctx).1, (runPipe rest ctx).2.1 + 1,
          (runPipe rest ctx).2.2)) := by
  refine ⟨?_, ?_, ?_, ?_⟩
  · intro f rest ctx kvs hf
    have hm : mergeResult ctx (.obj kvs) = objAssign ctx (.obj kvs) := by
      simp [mergeResult, JVal.truthy, JVal.typeofIsObject, JVal.isArr]
    rw [runPipe_cons_go f rest ctx (.obj kvs) hf rfl, hm]
  · intro ctx kvs k hnd
    exact ctxGet_objAssign kvs ctx k hnd
  · intro f rest ctx hf
    exact runPipe_cons_stop f rest ctx (.bool false) hf rfl
  · intro f rest ctx r hf hfalse hobj
    have hm : mergeResult ctx r = ctx := by
      simp [mergeResult, hobj]
    rw [runPipe_cons_go f rest ctx r hf hfalse, hm]

/-- A step contributing `{a: 1}` to the context. -/
def exStepA : PipeStep := fun _ => .ok (.obj [("a", .num 1)])

/-- A step reading the `a` contributed by a previous step and
contributing `{b: a+1}`. -/
def exStepB : PipeStep :=
  fun ctx => .ok (.obj [("b",
    match ctxGet ctx "a" with
    | some (.num n) => JVal.num (n + 1)
    | _ => JVal.null)])

/-- A step returning the literal `false` (the stop signal). -/
def exStepFalse : PipeStep := fun _ => .ok (.bool false)

/-- A step returning the literal `true` (continue, no merge). -/
def exStepTrue : PipeStep := fun _ => .ok (.bool true)

/-- Witness for C8 at concrete instances: the merge makes `a` visible to
the next step; `false` skips the remaining steps; a merged key overrides
an existing one; `true` continues without changing the context. -/
theorem c8_step_result_semantics_witness :
    runPipe [exStepA, exStepB] [] =
      ([("a", JVal.num 1), ("b", JVal.num 2)], 2, .completed) ∧
    runPipe [exStepA, exStepFalse, exStepB] [] =
      ([("a", JVal.num 1)], 2, .stopped) ∧
    ctxGet (objAssign [("a", JVal.num 1), ("x", JVal.num 7)]
        (.obj [("a", JVal.num 9), ("b", JVal.num 2)])) "a" = some (JVal.num 9) ∧
    runPipe [exStepTrue, exStepA] [] =
      ([("a", JVal.num 1)], 2, .completed) := by
  have h := c8_step_result_semantics
  refine ⟨?_, ?_, ?_, ?_⟩
  · rw [h.1 exStepA [exStepB] [] [("a", JVal.num 1)] rfl]
    rfl
  · rw [h.1 exStepA [exStepFalse, exStepB] [] [("a", JVal.num 1)] rfl]
    rw [h.2.2.1 exStepFalse [exStepB] (objAssign [] (.obj [("a", JVal.num 1)]))
      rfl]
    rfl
  · rw [h.2.1 [("a", JVal.num 1), ("x", JVal.num 7)]
      [("a", JVal.num 9), ("b", JVal.num 2)] "a" (by decide)]
    rfl
  · rw [h.2.2.2 exStepTrue [exStepA] [] (.bool true) rfl rfl rfl]
    rw [h.1 exStepA [] [] [("a", JVal.num 1)] rfl]
    rfl

/-- C9: error routing of the built flow handler.  When the steps before
`f` complete normally and `f` throws (or rejects) with `msg` on the
context accumulated so far, no step after `f` runs (exactly
`pre.length + 1` steps were invoked); with a `catch` handler registered
the handler is invoked exactly once with the context as of the failing
step and the error; without one the error is swallowed and the built
handler still resolves (`buildRun` yields its record with nothing
caught — the error never escapes the handler). -/
theorem c9_step_error_routing (pre post : List PipeStep) (f : PipeStep)
    (e : EventData) (wId flowId : Int) (c : Ctx) (msg : String)
    (hpre : runPipe pre (createFlowContext wId flowId e) =
      (c, pre.length, .completed))
    (hf : f c = .error msg) :
    runPipe (pre ++ f :: post) (createFlowContext wId flowId e) =
      (c, pre.length + 1, .failed msg) ∧
    buildRun ⟨pre ++ f :: post, true⟩ wId flowId e =
      { finalCtx := c, invoked := pre.length + 1, status := .failed msg,
        caught := some (c, msg) } ∧
    buildRun ⟨pre ++ f :: post, false⟩ wId flowId e =
      { finalCtx := c, invoked := pre.length + 1, status := .failed msg,
        caught := none } := by
  have hrun : runPipe (pre ++ f :: post) (createFlowContext wId flowId e) =
      (c, pre.length + 1, .failed msg) := by
    rw [runPipe_append_completed pre (f :: post) _ c hpre]
    rw [runPipe_cons_error f post c msg hf]
  refine ⟨hrun, ?_, ?_⟩
  · simp [buildRun, hrun]
  · simp [buildRun, hrun]

/-- A step that throws. -/
def exStepBoom : PipeStep := fun _ => .error "boom"

/-- Witness for C9 at a concrete instance: the first step throws, the
second never runs, the catch handler observes the fresh context and the
error; with no catch handler nothing is caught and the handler still
yields its record. -/
theorem c9_step_error_routing_witness :
    buildRun ⟨[exStepBoom, exStepA], true⟩ 1 9 exEnv =
      { finalCtx := createFlowContext 1 9 exEnv, invoked := 1,
        status := .failed "boom",
        caught := some (createFlowContext 1 9 exEnv, "boom") } ∧
    buildRun ⟨[exStepBoom, exStepA], false⟩ 1 9 exEnv =
      { finalCtx := createFlowContext 1 9 exEnv, invoked := 1,
        status := .failed "boom", caught := none } := by
  have h := c9_step_error_routing [] [exStepA] exStepBoom exEnv 1 9
    (createFlowContext 1 9 exEnv) "boom" rfl rfl
  exact ⟨h.2.1, h.2.2⟩

/-! Helper lemmas about the registry heap. -/

theorem length_setNth (sets : List (List Nat)) (i : Nat) (v : List Nat) :
    (setNth sets i v).length = sets.length := by
  induction sets generalizing i with
  | nil => rfl
  | cons s rest ih =>
    cases i with
    | zero => rfl
    | succ j => simp [setNth, ih]

theorem nthSet_setNth_self (sets : List (List Nat)) (i : Nat) (v : List Nat)
    (h : i < sets.length) : nthSet (setNth sets i v) i = v := by
  induction sets generalizing i with
  | nil => simp at h
  | cons s rest ih =>
    cases i with
    | zero => rfl
    | succ j =>
      simp only [List.length_cons] at h
      exact ih j (by omega)

theorem nthSet_setNth_ne (sets : List (List Nat)) (i j : Nat) (v : List Nat)
    (h : ¬ j = i) : nthSet (setNth sets i v) j = nthSet sets j := by
  induction sets generalizing i j with
  | nil => rfl
  | cons s rest ih =>
    cases i with
    | zero =>
      cases j with
      | zero => exact absurd rfl h
      | succ j2 => rfl
    | succ i2 =>
      cases j with
      | zero => rfl
      | succ j2 => exact ih i2 j2 (fun hh => h (by omega))

theorem nthSet_append_lt (sets : List (List Nat)) (v : List Nat) (i : Nat)
    (h : i < sets.length) : nthSet (sets ++ [v]) i = nthSet sets i := by
  induction sets generalizing i with
  | nil => simp at h
  | cons s rest ih =>
    cases i with
    | zero => rfl
    | succ j =>
      simp only [List.length_cons] at h
      exact ih j (by omega)

theorem nthSet_append_self (sets : List (List Nat)) (v : List Nat) :
    nthSet (sets ++ [v]) sets.length = v := by
  induction sets with
  | nil => rfl
  | cons s rest ih => simpa using ih

theorem setAdd_ne_nil (s : List Nat) (h : Nat) : setAdd s h ≠ [] := by
  unfold setAdd
  by_cases hm : h ∈ s
  · simp only [hm, if_true]
    intro he
    rw [he] at hm
    exact absurd hm (List.not_mem_nil h)
  · simp [hm]

theorem assocFind_mem (t : String) (l : List (String × Nat)) (sid : Nat)
    (h : assocFind t l = some sid) : (t, sid) ∈ l := by
  induction l with
  | nil => simp [assocFind] at h
  | cons p rest ih =>
    unfold assocFind at h
    by_cases hp : (p.1 == t) = true
    · rw [if_pos hp] at h
      have h1 : p.2 = sid := Option.some.inj h
      have h2 : p.1 = t := eq_of_beq hp
      have hpe : p = (t, sid) := by
        rw [← h1, ← h2]
      rw [← hpe]
      exact List.mem_cons_self p rest
    · rw [if_neg hp] at h
      exact List.mem_cons_of_mem p (ih h)

theorem assocFind_filter_self (t : String) (l : List (String × Nat)) :
    assocFind t (l.filter (fun p => p.1 != t)) = none := by
  induction l with
  | nil => rfl
  | cons p rest ih =>
    by_cases hp : p.1 = t
    · have hb : (p.1 != t) = false := by simp [hp]
      simp only [List.filter_cons, hb, Bool.false_eq_true, if_false]
      exact ih
    · have hb : (p.1 != t) = true := by simp [hp]
      simp only [List.filter_cons, hb, if_true]
      unfold assocFind
      rw [if_neg (by simp [hp])]
      exact ih

theorem pairwise_snd_ne_inj (l : List (String × Nat))
    (hp : l.Pairwise (fun p q => p.2 ≠ q.2)) :
    ∀ p q : String × Nat, p ∈ l → q ∈ l → p.2 = q.2 → p = q := by
  induction l with
  | nil => intro p q hpm _ _; exact absurd hpm (List.not_mem_nil p)
  | cons a rest ih =>
    intro p q hpm hqm he
    have ha := (List.pairwise_cons.mp hp).1
    have hrest := (List.pairwise_cons.mp hp).2
    rcases List.mem_cons.mp hpm with hpa | hpr
    · rcases List.mem_cons.mp hqm with hqa | hqr
      · rw [hpa, hqa]
      · exact absurd (hpa ▸ he) (ha q hqr)
    · rcases List.mem_cons.mp hqm with hqa | hqr
      · exact absurd (hqa ▸ he.symm) (ha p hpr)
      · exact ih hrest p q hpr hqr he

/-- The registry invariant maintained by `on` and the unsubscribe
closures: every topic entry points to a live, non-empty handler set; no
two topic entries share a set; and every closure ever handed out
addresses a live set whose index is only ever associated with the
closure's own topic. -/
def goodBus (b : PerikanLocalBus) : Prop :=
  (∀ p ∈ b.topics, p.2 < b.sets.length ∧ nthSet b.sets p.2 ≠ []) ∧
  b.topics.Pairwise (fun p q => p.2 ≠ q.2) ∧
  (∀ c ∈ b.closures, c.2.1 < b.sets.length ∧
    ∀ p ∈ b.topics, p.2 = c.2.1 → p.1 = c.1)

theorem goodBus_init : goodBus initBus := by
  refine ⟨?_, ?_, ?_⟩
  · intro p hp
    exact absurd hp (List.not_mem_nil p)
  · exact List.Pairwise.nil
  · intro c hc
    exact absurd hc (List.not_mem_nil c)

theorem goodBus_busOn (b : PerikanLocalBus) (t : String) (h : Nat)
    (hg : goodBus b) : goodBus (busOn b t h) := by
  obtain ⟨ha, hb, hc⟩ := hg
  cases hfind : assocFind t b.topics with
  | some sid =>
    have hmem : (t, sid) ∈ b.topics := assocFind_mem t b.topics sid hfind
    have hsid : sid < b.sets.length := (ha (t, sid) hmem).1
    unfold busOn
    rw [hfind]
    refine ⟨?_, ?_, ?_⟩
    · intro p hp
      rw [length_setNth]
      refine ⟨(ha p hp).1, ?_⟩
      by_cases hps : p.2 = sid
      · rw [hps, nthSet_setNth_self b.sets sid _ hsid]
        exact setAdd_ne_nil _ h
      · rw [nthSet_setNth_ne b.sets sid p.2 _ hps]
        exact (ha p hp).2
    · exact hb
    · intro c hcm
      rcases List.mem_append.mp hcm with hold | hnew
      · rw [length_setNth]
        exact ⟨(hc c hold).1, fun p hp => (hc c hold).2 p hp⟩
      · have hce : c = (t, sid, h) := List.mem_singleton.mp hnew
        subst hce
        rw [length_setNth]
        refine ⟨hsid, ?_⟩
        intro p hp hps
        have hpe := pairwise_snd_ne_inj b.topics hb p (t, sid) hp hmem hps
        rw [hpe]
  | none =>
    unfold busOn
    rw [hfind]
    refine ⟨?_, ?_, ?_⟩
    · intro p hp
      rw [List.length_append, List.length_singleton]
      rcases List.mem_append.mp hp with hold | hnew
      · refine ⟨by have := (ha p hold).1; omega, ?_⟩
        rw [nthSet_append_lt b.sets [h] p.2 (ha p hold).1]
        exact (ha p hold).2
      · have hpe : p = (t, b.sets.length) := List.mem_singleton.mp hnew
        subst hpe
        refine ⟨by omega, ?_⟩
        rw [nthSet_append_self]
        simp
    · rw [List.pairwise_append]
      refine ⟨hb, List.pairwise_singleton _ _, ?_⟩
      intro p hp q hq
      have hqe : q = (t, b.sets.length) := List.mem_singleton.mp hq
      subst hqe
      have := (ha p hp).1
      simp only
      omega
    · intro c hcm
      rw [List.length_append, List.length_singleton]
      rcases List.mem_append.mp hcm with hold | hnew
      · refine ⟨by have := (hc c hold).1; omega, ?_⟩
        intro p hp hps
        rcases List.mem_append.mp hp with hpold | hpnew
        · exact (hc c hold).2 p hpold hps
        · have hpe : p = (t, b.sets.length) := List.mem_singleton.mp hpnew
          have := (hc c hold).1
          rw [hpe] at hps
          simp only at hps
          omega
      · have hce : c = (t, b.sets.length, h) := List.mem_singleton.mp hnew
        subst hce
        refine ⟨by show b.sets.length < b.sets.length + 1; omega, ?_⟩
        intro p hp hps
        rcases List.mem_append.mp hp with hpold | hpnew
        · have := (ha p hpold).1
          simp only at hps
          omega
        · have hpe : p = (t, b.sets.length) := List.mem_singleton.mp hpnew
          rw [hpe]

theorem goodBus_runUnsub (b : PerikanLocalBus) (c : String × Nat × Nat)
    (hg : goodBus b) (hcm : c ∈ b.closures) : goodBus (runUnsub b c) := by
  obtain ⟨ha, hb, hc⟩ := hg
  obtain ⟨hclt, hcoh⟩ := hc c hcm
  unfold runUnsub
  by_cases hemp : ((nthSet b.sets c.2.1).erase c.2.2).isEmpty = true
  · rw [if_pos hemp]
    refine ⟨?_, ?_, ?_⟩
    · intro p hp
      have hpm : p ∈ b.topics := (List.mem_filter.mp hp).1
      have hpne : (p.1 != c.1) = true := (List.mem_filter.mp hp).2
      have hpsid : ¬ p.2 = c.2.1 := by
        intro he
        have := hcoh p hpm he
        simp [this] at hpne
      rw [length_setNth, nthSet_setNth_ne b.sets c.2.1 p.2 _ hpsid]
      exact ha p hpm
    · exact List.Pairwise.sublist (List.filter_sublist b.topics) hb
    · intro c2 hc2
      rw [length_setNth]
      refine ⟨(hc c2 hc2).1, ?_⟩
      intro p hp hps
      exact (hc c2 hc2).2 p (List.mem_filter.mp hp).1 hps
  · rw [if_neg hemp]
    refine ⟨?_, ?_, ?_⟩
    · intro p hp
      rw [length_setNth]
      refine ⟨(ha p hp).1, ?_⟩
      by_cases hps : p.2 = c.2.1
      · rw [hps, nthSet_setNth_self b.sets c.2.1 _ hclt]
        intro he
        rw [he] at hemp
        exact hemp rfl
      · rw [nthSet_setNth_ne b.sets c.2.1 p.2 _ hps]
        exact (ha p hp).2
    · exact hb
    · intro c2 hc2
      rw [length_setNth]
      exact ⟨(hc c2 hc2).1, (hc c2 hc2).2⟩

theorem goodBus_applyOp (b : PerikanLocalBus) (op : BusOp)
    (hg : goodBus b) : goodBus (applyOp b op) := by
  cases op with
  | «on» t h => exact goodBus_busOn b t h hg
  | unsub i =>
    cases hget : b.closures.get? i with
    | none =>
      have hget2 : b.closures[i]? = none := by
        rw [← List.get?_eq_getElem?]
        exact hget
      have he : applyOp b (BusOp.unsub i) = b := by
        simp [applyOp, hget2]
      rw [he]
      exact hg
    | some c =>
      have hget2 : b.closures[i]? = some c := by
        rw [← List.get?_eq_getElem?]
        exact hget
      have he : applyOp b (BusOp.unsub i) = runUnsub b c := by
        simp [applyOp, hget2]
      rw [he]
      exact goodBus_runUnsub b c hg (List.get?_mem hget)

theorem goodBus_applyOps (ops : List BusOp) : goodBus (applyOps ops) := by
  suffices hgen : ∀ (b : PerikanLocalBus), goodBus b →
      goodBus (List.foldl applyOp b ops) from
    hgen initBus goodBus_init
  induction ops with
  | nil => intro b hg; exact hg
  | cons op rest ih =>
    intro b hg
    exact ih (applyOp b op) (goodBus_applyOp b op hg)

/-- C4: after any sequence of `on` registrations and unsubscribe-closure
invocations starting from the empty bus, every topic key present in the
registry maps to a non-empty handler set; invoking the unsubscribe
closure of the last handler of a topic removes the topic entry entirely;
and an `emit` on a topic with no registry entry invokes no handler and
resolves. -/
theorem c4_registry_invariant :
    (∀ (ops : List BusOp) (t : String) (sid : Nat),
      assocFind t (applyOps ops).topics = some sid →
      nthSet (applyOps ops).sets sid ≠ []) ∧
    (∀ (b : PerikanLocalBus) (t : String) (sid h : Nat),
      assocFind t b.topics = some sid → nthSet b.sets sid = [h] →
      assocFind t (runUnsub b (t, sid, h)).topics = none) ∧
    (∀ (b : PerikanLocalBus) (ev : PerikanEvent) (e : EventData)
        (beh : Nat → EventData → Except String Unit) (delay : Nat → Int),
      assocFind ev.topic b.topics = none →
      emit b ev e beh delay = .ok []) := by
  refine ⟨?_, ?_, ?_⟩
  · intro ops t sid hfind
    exact ((goodBus_applyOps ops).1 (t, sid)
      (assocFind_mem t (applyOps ops).topics sid hfind)).2
  · intro b t sid h hfind hset
    show assocFind t
      (if ((nthSet b.sets (t, sid, h).2.1).erase (t, sid, h).2.2).isEmpty then
        { b with
          sets := setNth b.sets (t, sid, h).2.1
            ((nthSet b.sets (t, sid, h).2.1).erase (t, sid, h).2.2),
          topics := b.topics.filter (fun p => p.1 != (t, sid, h).1) }
      else
        { b with
          sets := setNth b.sets (t, sid, h).2.1
            ((nthSet b.sets (t, sid, h).2.1).erase (t, sid, h).2.2) }).topics
      = none
    simp only [hset]
    rw [if_pos (by simp [List.erase_cons_head])]
    exact assocFind_filter_self t b.topics
  · intro b ev e beh delay hfind
    unfold emit
    by_cases hv : ev.validate e = true
    · by_cases hw : (e.toW.isEmpty || e.toW.contains b.workerId) = true
      · simp only [hv, hw, hfind, Bool.not_true, Bool.false_eq_true, if_false,
          if_true]
      · have hw2 : (e.toW.isEmpty || e.toW.contains b.workerId) = false :=
          Bool.eq_false_iff.mpr hw
        simp only [hv, hw2, Bool.not_true, Bool.false_eq_true, if_false,
          if_true]
    · have hv2 : ev.validate e = false := Bool.eq_false_iff.mpr hv
      simp only [hv2, Bool.not_false, if_true]

/-- Witness for C4 at concrete instances: after registering handler 7 on
topic `t` the topic's set is non-empty; unsubscribing that last handler
removes the topic entry; a subsequent `emit` on the topic resolves with
no handler invoked. -/
theorem c4_registry_invariant_witness :
    nthSet (applyOps [BusOp.on "t" 7]).sets 0 ≠ [] ∧
    assocFind "t" (runUnsub (applyOps [BusOp.on "t" 7]) ("t", 0, 7)).topics =
      none ∧
    emit (applyOps [BusOp.on "t" 7, BusOp.unsub 0]) exDef exEnv exBeh exDelay =
      .ok [] := by
  have h := c4_registry_invariant
  refine ⟨?_, ?_, ?_⟩
  · exact h.1 [BusOp.on "t" 7] "t" 0 (by decide)
  · exact h.2.1 (applyOps [BusOp.on "t" 7]) "t" 0 7 (by decide) (by decide)
  · exact h.2.2 (applyOps [BusOp.on "t" 7, BusOp.unsub 0]) exDef exEnv exBeh
      exDelay (by decide)
